import Mathlib

/-!
Verification development for the AM expression language
(lexer `src/lexer.rs`, token model `src/token.rs`, parser `src/parser.rs`,
AST `src/ast.rs`, evaluator `src/eval.rs`, registry/REPL host `src/repl.rs`).

The Rust sources are shallowly embedded:

* `f64` is modelled by `F64`: an exact rational together with the IEEE-754
  special values `+inf`, `-inf` and `NaN`.  Finite arithmetic is exact
  (no rounding and no signed zero are modelled); every arithmetic step
  exercised by the theorems below stays inside the exactly representable
  dyadic values, where the model and the machine double agree.
  `f64::sqrt` of a non-perfect-square is irrational, hence not
  representable in the exact model; `F64.sqrt` returns a fixed rational
  placeholder there.  No theorem below depends on that placeholder value.
* Source bytes are modelled as `List Nat` (one entry per byte, values
  below 256), matching the Rust lexer's byte-indexed scan exactly.
* Rust functions that signal failure by stack unwinding (the parser's
  caret diagnostics and `Option::expect`) are embedded as
  `Except String`-returning functions whose error payload is the exact
  panic message the Rust code would carry.
* Recursion that the Rust code runs on the native call stack (the
  recursive-descent parser, the evaluator's entry into algorithm bodies)
  is made total with an explicit fuel parameter; running out of fuel is a
  distinguished error string that stands for stack exhaustion.
-/

/-- Exact model of the `f64` values manipulated by the interpreter:
a finite rational, the two infinities, or NaN. -/
inductive F64 where
  | fin (q : ℚ)
  | inf
  | ninf
  | nan
deriving DecidableEq, Repr

namespace F64

/-- Model of `f64::is_nan`. -/
def isNan : F64 → Bool
  | .nan => true
  | _ => false

/-- Model of the primitive IEEE `==` on doubles (`NaN` equal to nothing,
including itself; signed zero is not modelled). -/
def beq : F64 → F64 → Bool
  | .nan, _ => false
  | _, .nan => false
  | .inf, .inf => true
  | .ninf, .ninf => true
  | .fin a, .fin b => a == b
  | _, _ => false

/-- Model of IEEE `+` (exact on finite operands). -/
def add : F64 → F64 → F64
  | .nan, _ => .nan
  | _, .nan => .nan
  | .inf, .ninf => .nan
  | .ninf, .inf => .nan
  | .inf, _ => .inf
  | _, .inf => .inf
  | .ninf, _ => .ninf
  | _, .ninf => .ninf
  | .fin a, .fin b => .fin (a + b)

/-- Model of IEEE unary negation. -/
def neg : F64 → F64
  | .nan => .nan
  | .inf => .ninf
  | .ninf => .inf
  | .fin a => .fin (-a)

/-- Model of IEEE `-` (exact on finite operands). -/
def sub (a b : F64) : F64 := add a (neg b)

/-- Model of IEEE `*` (exact on finite operands; `inf * 0` is NaN). -/
def mul : F64 → F64 → F64
  | .nan, _ => .nan
  | _, .nan => .nan
  | .inf, .inf => .inf
  | .inf, .ninf => .ninf
  | .ninf, .inf => .ninf
  | .ninf, .ninf => .inf
  | .inf, .fin b => if b > 0 then .inf else if b < 0 then .ninf else .nan
  | .fin a, .inf => if a > 0 then .inf else if a < 0 then .ninf else .nan
  | .ninf, .fin b => if b > 0 then .ninf else if b < 0 then .inf else .nan
  | .fin a, .ninf => if a > 0 then .ninf else if a < 0 then .inf else .nan
  | .fin a, .fin b => .fin (a * b)

/-- Model of IEEE `/` (exact on finite operands; division by zero gives a
signed infinity or NaN; signed zero is not modelled). -/
def div : F64 → F64 → F64
  | .nan, _ => .nan
  | _, .nan => .nan
  | .inf, .inf => .nan
  | .inf, .ninf => .nan
  | .ninf, .inf => .nan
  | .ninf, .ninf => .nan
  | .inf, .fin b => if b < 0 then .ninf else .inf
  | .ninf, .fin b => if b < 0 then .inf else .ninf
  | .fin _, .inf => .fin 0
  | .fin _, .ninf => .fin 0
  | .fin a, .fin b =>
      if b == 0 then
        if a > 0 then .inf else if a < 0 then .ninf else .nan
      else .fin (a / b)

/-- Model of IEEE `<` (false whenever a NaN is involved). -/
def lt : F64 → F64 → Bool
  | .nan, _ => false
  | _, .nan => false
  | .ninf, .ninf => false
  | .ninf, _ => true
  | _, .ninf => false
  | .inf, _ => false
  | .fin _, .inf => true
  | .fin a, .fin b => a < b

/-- Model of IEEE `<=`. -/
def le (a b : F64) : Bool := lt a b || beq a b

/-- Model of IEEE `>`. -/
def gt (a b : F64) : Bool := lt b a

/-- Model of IEEE `>=`. -/
def ge (a b : F64) : Bool := le b a

/-- Model of `f64::abs`. -/
def abs : F64 → F64
  | .nan => .nan
  | .inf => .inf
  | .ninf => .inf
  | .fin a => .fin |a|

/-- Exact rational square root, when one exists. -/
def ratSqrt (q : ℚ) : Option ℚ :=
  let sn := Nat.sqrt q.num.toNat
  let sd := Nat.sqrt q.den
  if sn * sn == q.num.toNat && sd * sd == q.den then some (mkRat sn sd) else none

/-- Model of `f64::sqrt`: NaN for negatives and `-inf`, `inf` for `inf`,
the exact root on perfect squares.  For other positive rationals the true
double result is irrational; the exact model returns a fixed rational
placeholder (`floor (sqrt (num * den)) / den`).  No theorem below depends
on the placeholder's value. -/
def sqrt : F64 → F64
  | .nan => .nan
  | .inf => .inf
  | .ninf => .nan
  | .fin q =>
      if q < 0 then .nan
      else
        match ratSqrt q with
        | some r => .fin r
        | none => .fin (mkRat (Nat.sqrt (q.num.toNat * q.den)) q.den)

end F64

/-! Decimal literals.  The lexer only emits number tokens of the shape
`digits ['.' digits*]`; `str::parse::<f64>` succeeds on all of them.
`parseDecimal` converts such a token text to the exact rational it
denotes (every literal appearing in the theorems below is exactly
representable as a double, so the model and `f64` agree on them). -/

/-- Value of a list of decimal digit characters (most significant first). -/
def digitsVal (l : List Char) : Nat :=
  l.foldl (fun a c => a * 10 + (c.toNat - 48)) 0

/-- Whether every character of the list is an ASCII digit. -/
def allDigits (l : List Char) : Bool :=
  l.all (fun c => 48 ≤ c.toNat && c.toNat ≤ 57)

/-- Parse a numeric literal of the form `digits ['.' digits*]` to a
rational; `none` on any other shape (mirroring a `str::parse` failure). -/
def parseDecimal (s : String) : Option ℚ :=
  let intPart := s.data.takeWhile (fun c => c ≠ '.')
  let rest := s.data.dropWhile (fun c => c ≠ '.')
  if intPart = [] ∨ ¬ allDigits intPart then none
  else
    match rest with
    | [] => some ((digitsVal intPart : ℚ))
    | _ :: frac =>
        if allDigits frac then
          some ((digitsVal intPart : ℚ) + mkRat (digitsVal frac) (10 ^ frac.length))
        else none

/-! Token model, from `src/token.rs`. -/

/-- Token kinds, one constructor per variant of the Rust `Token` enum. -/
inductive Token where
  | At
  | LParen
  | RParen
  | LBracket
  | RBracket
  | Comma
  | Semicolon
  | Underscore
  | Equal
  | Arrow
  | Pipe
  | QMark
  | DblPipe
  | DblAmp
  | DblGt
  | Plus
  | Minus
  | Star
  | Slash
  | Percent
  | EqEq
  | Neq
  | Le
  | Ge
  | Lt
  | Gt
  | Bang
  | Ident (s : String)
  | Number (s : String)
  | Bool (b : Bool)
  | String (s : String)
  | Error (s : String)
  | Caret
deriving DecidableEq, Repr

/-- A token plus its half-open byte span `[start, end)` into the source. -/
structure TokSpan where
  tok : Token
  start : Nat
  stop : Nat
deriving DecidableEq, Repr

/-- Constructor helper mirroring `token.rs`'s `span`. -/
def mkSpan (tok : Token) (start stop : Nat) : TokSpan := ⟨tok, start, stop⟩

/-- Render a byte list back to a string, one character per byte
(agrees with the Rust `&str` slice for ASCII sources; all concrete
sources in this file are ASCII). -/
def bytesToString (l : List Nat) : String :=
  String.mk (l.map Char.ofNat)

/-- Scan of `caret_message`'s first loop: walk the source up to (not
including) byte offset `byte`, tracking `(line, col, last_nl)` exactly as
the Rust loop does. -/
def caretScan (byte : Nat) : List Nat → Nat → Nat × Nat × Nat → Nat × Nat × Nat
  | [], _, acc => acc
  | b :: rest, i, (line, col, lastNl) =>
    if byte ≤ i then (line, col, lastNl)
    else if b == 10 then caretScan byte rest (i + 1) (line + 1, 1, i + 1)
    else caretScan byte rest (i + 1) (line, col + 1, lastNl)

/-- Rust's `{n:>3}` formatting: decimal, right-aligned to width 3. -/
def rightAlign3 (n : Nat) : String :=
  let s := toString n
  if s.length < 3 then String.mk (List.replicate (3 - s.length) ' ') ++ s else s

/-- Embedding of `caret_message` (`src/token.rs`): turn a byte offset into
a 1-based line/column pair and render the four-part caret diagnostic.
The Rust loop walks `char_indices`; for ASCII sources (the only concrete
sources in this file) that coincides with the byte walk used here. -/
def caretMessage (src : List Nat) (byte : Nat) (msg : String) : String :=
  let scanned := caretScan byte src 0 (1, 1, 0)
  let line := scanned.1
  let col := scanned.2.1
  let lastNl := scanned.2.2
  let lineLen := ((src.drop lastNl).takeWhile (fun b => b ≠ 10)).length
  let lineText := bytesToString ((src.drop lastNl).take lineLen)
  let caret := String.mk (List.replicate (col - 1) ' ') ++ "^"
  "error: " ++ msg ++ " \n --> input:" ++ toString line ++ ":" ++ toString col ++
    "\n" ++ rightAlign3 line ++ " | " ++ lineText ++ "\n | " ++ caret ++ " here"

/-! Lexer, from `src/lexer.rs`.  The scan is byte-indexed exactly like the
Rust code; the index-advancing `while` loops become fueled recursions
returning `none` when fuel runs out, and `lex` supplies fuel `len + 1`,
which theorem `lexer_total_and_error_tokens` proves sufficient. -/

/-- Model of `u8::is_ascii_whitespace`. -/
def isAsciiWhitespaceB (b : Nat) : Bool :=
  b == 32 || b == 9 || b == 10 || b == 13 || b == 12

/-- Model of `is_ident_start` on a byte read as a char. -/
def isIdentStartB (b : Nat) : Bool :=
  (65 ≤ b && b ≤ 90) || (97 ≤ b && b ≤ 122) || b == 95

/-- Model of `char::is_ascii_digit` on a byte. -/
def isDigitB (b : Nat) : Bool := 48 ≤ b && b ≤ 57

/-- Model of `is_ident_continue` on a byte. -/
def isIdentContinueB (b : Nat) : Bool := isIdentStartB b || isDigitB b

/-- The two-character operator table tried first by the lexer
(`->  >>  ||  &&  ==  !=  <=  >=`), in source order. -/
def twoCharOp (a c : Nat) : Option Token :=
  if a == 45 && c == 62 then some .Arrow
  else if a == 62 && c == 62 then some .DblGt
  else if a == 124 && c == 124 then some .DblPipe
  else if a == 38 && c == 38 then some .DblAmp
  else if a == 61 && c == 61 then some .EqEq
  else if a == 33 && c == 61 then some .Neq
  else if a == 60 && c == 61 then some .Le
  else if a == 62 && c == 61 then some .Ge
  else none

/-- The single-character punctuation/operator table
(`@ ( ) [ ] , ; _ = | ? ! + - * / % < > ^`). -/
def singleCharTok (b : Nat) : Option Token :=
  if b == 64 then some .At
  else if b == 40 then some .LParen
  else if b == 41 then some .RParen
  else if b == 91 then some .LBracket
  else if b == 93 then some .RBracket
  else if b == 44 then some .Comma
  else if b == 59 then some .Semicolon
  else if b == 95 then some .Underscore
  else if b == 61 then some .Equal
  else if b == 124 then some .Pipe
  else if b == 63 then some .QMark
  else if b == 33 then some .Bang
  else if b == 43 then some .Plus
  else if b == 45 then some .Minus
  else if b == 42 then some .Star
  else if b == 47 then some .Slash
  else if b == 37 then some .Percent
  else if b == 60 then some .Lt
  else if b == 62 then some .Gt
  else if b == 94 then some .Caret
  else none

/-- End of a `//` line comment: skip to (not past) the next newline,
starting after the two slashes. -/
def skipLineEnd (bytes : List Nat) (i : Nat) : Nat :=
  i + 2 + ((bytes.drop (i + 2)).takeWhile (fun b => b ≠ 10)).length

/-- Loop of `consume_block_content`: nesting-aware block comment scan.
`i` is the current byte index, `depth` the open-comment count. -/
def consumeBlockLoop (bytes : List Nat) : Nat → Nat → Nat → Option Nat
  | 0, _, _ => none
  | fuel + 1, i, depth =>
    if i < bytes.length then
      let c := bytes.getD i 0
      if c == 47 && i + 1 < bytes.length && bytes.getD (i + 1) 0 == 42 then
        consumeBlockLoop bytes fuel (i + 2) (depth + 1)
      else if c == 42 && i + 1 < bytes.length && bytes.getD (i + 1) 0 == 47 then
        if depth - 1 == 0 then some (i + 2)
        else consumeBlockLoop bytes fuel (i + 2) (depth - 1)
      else consumeBlockLoop bytes fuel (i + 1) depth
    else some i

/-- Embedding of `consume_block_content` (called with `i` at the `*` of
the opening `/*`; it first steps past it). -/
def consumeBlockContent (bytes : List Nat) (fuel i : Nat) : Option Nat :=
  consumeBlockLoop bytes fuel (i + 1) 1

/-- Embedding of `process_escape_sequence`: `i` sits on the escaped byte. -/
def processEscape (bytes : List Nat) (i : Nat) (s : String) : String × Nat :=
  let esc := Char.ofNat (bytes.getD i 0)
  let s :=
    if esc == '\\' then s.push '\\'
    else if esc == '"' then s.push '"'
    else if esc == 'n' then s.push '\n'
    else if esc == 't' then s.push '\t'
    else if esc == 'r' then s.push '\r'
    else s.push esc
  (s, i + 1)

/-- Loop of `lex_string_literal`: returns `(closed, content, next index)`
where `closed` records whether a terminating quote was found. -/
def lexStringLoop (bytes : List Nat) : Nat → Nat → String → Option (Bool × String × Nat)
  | 0, _, _ => none
  | fuel + 1, i, s =>
    if i < bytes.length then
      let ch := bytes.getD i 0
      if ch == 34 then some (true, s, i + 1)
      else if ch == 92 && i + 1 < bytes.length then
        let es := processEscape bytes (i + 1) s
        lexStringLoop bytes fuel es.2 es.1
      else lexStringLoop bytes fuel (i + 1) (s.push (Char.ofNat ch))
    else some (false, s, i)

/-- Embedding of `lex_string_literal`: produces the `String` token, or an
in-band `Error` token spanning from the opening quote to wherever the
scan stopped (end of input when unterminated), plus the next index. -/
def lexStringLiteral (bytes : List Nat) (fuel start : Nat) : Option (TokSpan × Nat) :=
  (lexStringLoop bytes fuel (start + 1) "").map fun r =>
    match r with
    | (true, s, i) => (mkSpan (.String s) start i, i)
    | (false, _, i) => (mkSpan (.Error "unterminated string literal") start i, i)

/-- The in-band message for an unrecognized byte. -/
def unexpectedCharMsg (b : Nat) : String :=
  "unexpected character '" ++ (Char.ofNat b).toString ++ "'"

/-- Main lexer loop of `lex`, one fueled step per Rust loop iteration. -/
def lexLoop (bytes : List Nat) : Nat → Nat → Option (List TokSpan)
  | 0, _ => none
  | fuel + 1, i =>
    if i < bytes.length then
      let b := bytes.getD i 0
      if isAsciiWhitespaceB b then lexLoop bytes fuel (i + 1)
      else
        match (if i + 1 < bytes.length then twoCharOp b (bytes.getD (i + 1) 0) else none) with
        | some t => (lexLoop bytes fuel (i + 2)).map (mkSpan t i (i + 2) :: ·)
        | none =>
          if i + 1 < bytes.length && b == 47 && bytes.getD (i + 1) 0 == 47 then
            lexLoop bytes fuel (skipLineEnd bytes i)
          else if i + 1 < bytes.length && b == 47 && bytes.getD (i + 1) 0 == 42 then
            match consumeBlockContent bytes fuel (i + 1) with
            | none => none
            | some j => lexLoop bytes fuel j
          else
            match singleCharTok b with
            | some t => (lexLoop bytes fuel (i + 1)).map (mkSpan t i (i + 1) :: ·)
            | none =>
              if b == 34 then
                match lexStringLiteral bytes fuel i with
                | none => none
                | some (tok, j) => (lexLoop bytes fuel j).map (tok :: ·)
              else if isIdentStartB b then
                let stop := i + 1 + ((bytes.drop (i + 1)).takeWhile isIdentContinueB).length
                let text := bytesToString ((bytes.drop i).take (stop - i))
                let tok :=
                  if text == "true" then Token.Bool true
                  else if text == "false" then Token.Bool false
                  else Token.Ident text
                (lexLoop bytes fuel stop).map (mkSpan tok i stop :: ·)
              else if isDigitB b then
                let d1 := i + 1 + ((bytes.drop (i + 1)).takeWhile isDigitB).length
                let stop :=
                  if d1 < bytes.length && bytes.getD d1 0 == 46 then
                    d1 + 1 + ((bytes.drop (d1 + 1)).takeWhile isDigitB).length
                  else d1
                let text := bytesToString ((bytes.drop i).take (stop - i))
                (lexLoop bytes fuel stop).map (mkSpan (.Number text) i stop :: ·)
              else
                (lexLoop bytes fuel (i + 1)).map
                  (mkSpan (.Error (unexpectedCharMsg b)) i (i + 1) :: ·)
    else some []

/-- Embedding of `lex` before fuel discharge: `none` only on fuel
exhaustion, which `lexer_total_and_error_tokens` rules out. -/
def lexQ (bytes : List Nat) : Option (List TokSpan) :=
  lexLoop bytes (bytes.length + 1) 0

/-- Embedding of `lex` (`src/lexer.rs`): total by the sufficiency of the
supplied fuel. -/
def lex (bytes : List Nat) : List TokSpan :=
  (lexQ bytes).getD []

/-- View a string as the byte list the lexer scans (one byte per char;
faithful for the ASCII sources used in this file). -/
def strBytes (s : String) : List Nat :=
  s.data.map Char.toNat

/-! AST, from `src/ast.rs`. -/

/-- Unary operator kinds. -/
inductive UnOp where
  | Neg
  | Not
deriving DecidableEq, Repr

/-- Binary operator kinds.  `Pow` and `Mod` exist here (the parser emits
them) even though `eval_expr`'s operator match has no arm for either. -/
inductive BinOp where
  | Add
  | Sub
  | Mul
  | Div
  | Pow
  | Mod
  | Eq
  | Ne
  | Lt
  | Le
  | Gt
  | Ge
  | And
  | Or
deriving DecidableEq, Repr

/-- Expression tree, one constructor per variant of the Rust `Expr` enum. -/
inductive Expr where
  | Number (x : F64)
  | Bool (b : Bool)
  | Ident (name : String)
  | Call (isAlg : Bool) (name : String) (args : List Expr)
  | Unary (op : UnOp) (e : Expr)
  | Bin (op : BinOp) (l : Expr) (r : Expr)
  | Case (arms : List (Expr × Expr)) (dflt : Expr)
  | Pipe (head : Expr) (steps : List Expr)
deriving Repr

/-- An algorithm definition `@name(params) = body`. -/
structure AlgorithmDef where
  name : String
  params : List String
  body : Expr
deriving Repr

/-! Parser, from `src/parser.rs`.  The Rust `Tokens` cursor couples an
immutable token list and source with a mutable `pos`; here the immutable
part is the `Tokens` structure and `pos` is passed and returned
explicitly.  Panics become `Except.error` carrying the exact panic
payload (`err_here`/`expect` panic with the rendered caret message;
`Option::expect` panics with its bare message).  The recursive descent
runs on fuel; `outOfFuelMsg` models native stack exhaustion, which the
Rust code would hit as a process abort on pathological nesting. -/

/-- The immutable part of the parser state. -/
structure Tokens where
  items : List TokSpan
  src : List Nat
deriving DecidableEq, Repr

/-- Model of `Tokens::peek`. -/
def Tokens.peekTok (ts : Tokens) (pos : Nat) : Option Token :=
  (ts.items.get? pos).map TokSpan.tok

/-- Model of `Tokens::peek_span`. -/
def Tokens.peekSpanAt (ts : Tokens) (pos : Nat) : Option TokSpan :=
  ts.items.get? pos

/-- Model of `Tokens::last_span`. -/
def Tokens.lastSpanAt (ts : Tokens) (pos : Nat) : Option TokSpan :=
  if pos == 0 then none else ts.items.get? (pos - 1)

/-- Model of `Tokens::next`: the token at `pos` plus the advanced cursor. -/
def Tokens.nextTok (ts : Tokens) (pos : Nat) : Option (Token × Nat) :=
  (ts.items.get? pos).map fun s => (s.tok, pos + 1)

/-- Model of `Tokens::eat`: whether the wanted token was consumed, and the
resulting cursor. -/
def eatTok (ts : Tokens) (pos : Nat) (want : Token) : Bool × Nat :=
  match ts.peekTok pos with
  | some t => if t == want then (true, pos + 1) else (false, pos)
  | none => (false, pos)

/-- The byte offset `err_here`/`expect` report from: the start of the
token at the cursor, else the end of the last consumed token, else 0. -/
def errByteAt (ts : Tokens) (pos : Nat) : Nat :=
  match ts.peekSpanAt pos with
  | some s => s.start
  | none =>
    match ts.lastSpanAt pos with
    | some s => s.stop
    | none => 0

/-- The rendered caret diagnostic `err_here` panics with. -/
def errMsgAt (ts : Tokens) (pos : Nat) (msg : String) : String :=
  caretMessage ts.src (errByteAt ts pos) msg

/-- Rust `{:?}` (derived Debug) rendering of a token. -/
def debugToken : Token → String
  | .At => "At"
  | .LParen => "LParen"
  | .RParen => "RParen"
  | .LBracket => "LBracket"
  | .RBracket => "RBracket"
  | .Comma => "Comma"
  | .Semicolon => "Semicolon"
  | .Underscore => "Underscore"
  | .Equal => "Equal"
  | .Arrow => "Arrow"
  | .Pipe => "Pipe"
  | .QMark => "QMark"
  | .DblPipe => "DblPipe"
  | .DblAmp => "DblAmp"
  | .DblGt => "DblGt"
  | .Plus => "Plus"
  | .Minus => "Minus"
  | .Star => "Star"
  | .Slash => "Slash"
  | .Percent => "Percent"
  | .EqEq => "EqEq"
  | .Neq => "Neq"
  | .Le => "Le"
  | .Ge => "Ge"
  | .Lt => "Lt"
  | .Gt => "Gt"
  | .Bang => "Bang"
  | .Ident s => "Ident(\"" ++ s ++ "\")"
  | .Number s => "Number(\"" ++ s ++ "\")"
  | .Bool b => "Bool(" ++ toString b ++ ")"
  | .String s => "String(\"" ++ s ++ "\")"
  | .Error s => "Error(\"" ++ s ++ "\")"
  | .Caret => "Caret"

/-- Rust `{:?}` rendering of an `Option<Token>`. -/
def debugOptionToken : Option Token → String
  | none => "None"
  | some t => "Some(" ++ debugToken t ++ ")"

/-- Abbreviated rendering of an expression for error messages.  The Rust
code formats the full derived Debug tree here; no theorem inspects these
payloads, so only the constructor head is kept. -/
def debugExpr : Expr → String
  | .Number _ => "Number"
  | .Bool _ => "Bool"
  | .Ident _ => "Ident"
  | .Call _ _ _ => "Call"
  | .Unary _ _ => "Unary"
  | .Bin _ _ _ => "Bin"
  | .Case _ _ => "Case"
  | .Pipe _ _ => "Pipe"

/-- Model of `Tokens::expect`: consume `want` or fail with the rendered
caret diagnostic. -/
def expectTok (ts : Tokens) (pos : Nat) (want : Token) (ctx : String) : Except String Nat :=
  let e := eatTok ts pos want
  if e.1 then .ok e.2
  else .error (errMsgAt ts pos ("expected " ++ debugToken want ++ " while parsing " ++ ctx))

/-- Fuel-exhaustion marker standing for native stack exhaustion. -/
def outOfFuelMsg : String := "INTERNAL: recursion limit reached"

/-- Embedding of `parse_number` (called after the number token is
consumed; `pos` is the advanced cursor, where `err_here` would point). -/
def parseNumberTok (ts : Tokens) (pos : Nat) (s : String) : Except String (Expr × Nat) :=
  match parseDecimal s with
  | some q => .ok (.Number (.fin q), pos)
  | none => .error (errMsgAt ts pos ("bad number literal: " ++ s))

/-- Embedding of `parse_algorithm_call`: `@` already consumed; reads the
algorithm name and yields a zero-argument-so-far call node. -/
def parseAlgorithmCall (ts : Tokens) (pos : Nat) : Except String (Expr × Nat) :=
  match ts.nextTok pos with
  | some (.Ident s, p) => .ok (.Call true s [], p)
  | some (t, p) =>
      .error (errMsgAt ts p ("expected identifier after '@', got " ++ debugOptionToken (some t)))
  | none =>
      .error (errMsgAt ts pos ("expected identifier after '@', got " ++ debugOptionToken none))

/-- Embedding of `parse_algorithm_name`. -/
def parseAlgorithmName (ts : Tokens) (pos : Nat) : Except String (String × Nat) :=
  match ts.nextTok pos with
  | some (.Ident s, p) => .ok (s, p)
  | some (t, p) =>
      .error (errMsgAt ts p ("expected identifier after '@', got " ++ debugOptionToken (some t)))
  | none =>
      .error (errMsgAt ts pos ("expected identifier after '@', got " ++ debugOptionToken none))

/-- Embedding of `attach_call_to_node` (`pos` is the cursor after the
closing parenthesis, where `err_here` would point). -/
def attachCallToNode (ts : Tokens) (pos : Nat) (node : Expr) (args : List Expr) :
    Except String Expr :=
  match node with
  | .Ident name => .ok (.Call false name args)
  | .Call true name _ => .ok (.Call true name args)
  | other => .error (errMsgAt ts pos ("cannot call non-name expression: " ++ debugExpr other))

/-! The recursive descent is defunctionalized into one fueled function
`parseGo` over a request type: one request constructor per Rust parse
function (the `...Loop` requests are the Rust functions' internal `while`
loops).  Thin wrappers below restore the per-function names; every
recursive call costs one unit of fuel, standing for one native stack
frame. -/

/-- One request per Rust parse function (plus their internal loops). -/
inductive PReq where
  | exprR (pos : Nat)
  | caseR (pos : Nat)
  | caseLoopR (pos : Nat) (arms : List (Expr × Expr)) (dflt : Option Expr)
  | defaultArmR (pos : Nat)
  | condArmR (pos : Nat) (arms : List (Expr × Expr))
  | questionArmR (pos : Nat) (arms : List (Expr × Expr)) (cond : Expr)
  | pipeR (pos : Nat)
  | pipeLoopR (pos : Nat) (steps : List Expr)
  | orR (pos : Nat)
  | orLoopR (node : Expr) (pos : Nat)
  | andR (pos : Nat)
  | andLoopR (node : Expr) (pos : Nat)
  | cmpR (pos : Nat)
  | addR (pos : Nat)
  | addLoopR (node : Expr) (pos : Nat)
  | mulR (pos : Nat)
  | mulLoopR (node : Expr) (pos : Nat)
  | powR (pos : Nat)
  | unaryR (pos : Nat)
  | postfixR (pos : Nat)
  | funCallsR (node : Expr) (pos : Nat)
  | primaryR (pos : Nat)
  | parenR (pos : Nat)
  | argListR (pos : Nat)
  | argLoopR (args : List Expr) (pos : Nat)

/-- Result type of each request. -/
def PResTy : PReq → Type
  | .caseLoopR .. => List (Expr × Expr) × Option Expr × Nat
  | .condArmR .. => List (Expr × Expr) × Nat
  | .questionArmR .. => List (Expr × Expr) × Nat
  | .pipeLoopR .. => List Expr × Nat
  | .argListR .. => List Expr × Nat
  | .argLoopR .. => List Expr × Nat
  | _ => Expr × Nat

/-- The whole recursive-descent parser, one Rust function per arm. -/
def parseGo (ts : Tokens) : (fuel : Nat) → (req : PReq) → Except String (PResTy req)
  | 0, _ => .error outOfFuelMsg
  | fuel + 1, .exprR pos =>
    if ts.peekTok pos == some .LBracket then parseGo ts fuel (.caseR pos)
    else parseGo ts fuel (.pipeR pos)
  | fuel + 1, .caseR pos => do
    let pos1 ← expectTok ts pos .LBracket "case '['"
    let r ← parseGo ts fuel (.caseLoopR pos1 [] none)
    let pos2 ← expectTok ts r.2.2 .RBracket "closing ']'"
    match r.2.1 with
    | some d => .ok (.Case r.1 d, pos2)
    | none => .error "case block missing default '_' ? expr"
  | fuel + 1, .caseLoopR pos arms dflt =>
    let e1 := eatTok ts pos .Underscore
    if e1.1 then do
      let d ← parseGo ts fuel (.defaultArmR e1.2)
      let e2 := eatTok ts d.2 .Semicolon
      if e2.1 then parseGo ts fuel (.caseLoopR e2.2 arms (some d.1))
      else .ok (arms, some d.1, e2.2)
    else do
      let a ← parseGo ts fuel (.condArmR pos arms)
      let e2 := eatTok ts a.2 .Semicolon
      if e2.1 then parseGo ts fuel (.caseLoopR e2.2 a.1 dflt)
      else .ok (a.1, dflt, e2.2)
  | fuel + 1, .defaultArmR pos =>
    let q := eatTok ts pos .QMark
    if q.1 then parseGo ts fuel (.exprR q.2)
    else
      let a := eatTok ts pos .Arrow
      if a.1 then parseGo ts fuel (.exprR a.2)
      else .error (errMsgAt ts pos "expected '?' or '->' after '_' in case arm")
  | fuel + 1, .condArmR pos arms => do
    let c ← parseGo ts fuel (.orR pos)
    let eq := eatTok ts c.2 .QMark
    if eq.1 then parseGo ts fuel (.questionArmR eq.2 arms c.1)
    else
      let ea := eatTok ts c.2 .Arrow
      if ea.1 then do
        let r ← parseGo ts fuel (.exprR ea.2)
        .ok (arms ++ [(c.1, r.1)], r.2)
      else .error (errMsgAt ts c.2 "expected '?' or '->' after condition in case arm")
  | fuel + 1, .questionArmR pos arms cond => do
    let t ← parseGo ts fuel (.exprR pos)
    let ep := eatTok ts t.2 .Pipe
    if ep.1 then do
      let e ← parseGo ts fuel (.exprR ep.2)
      .ok (arms ++ [(cond, t.1), (.Unary .Not cond, e.1)], e.2)
    else .ok (arms ++ [(cond, t.1)], t.2)
  | fuel + 1, .pipeR pos => do
    let h ← parseGo ts fuel (.orR pos)
    let st ← parseGo ts fuel (.pipeLoopR h.2 [])
    if st.1.isEmpty then .ok (h.1, st.2)
    else .ok (.Pipe h.1 st.1, st.2)
  | fuel + 1, .pipeLoopR pos steps =>
    let e := eatTok ts pos .DblGt
    if e.1 then do
      let s ← parseGo ts fuel (.orR e.2)
      parseGo ts fuel (.pipeLoopR s.2 (steps ++ [s.1]))
    else .ok (steps, pos)
  | fuel + 1, .orR pos => do
    let r ← parseGo ts fuel (.andR pos)
    parseGo ts fuel (.orLoopR r.1 r.2)
  | fuel + 1, .orLoopR node pos =>
    if ts.peekTok pos == some .DblPipe then do
      let r ← parseGo ts fuel (.andR (pos + 1))
      parseGo ts fuel (.orLoopR (.Bin .Or node r.1) r.2)
    else .ok (node, pos)
  | fuel + 1, .andR pos => do
    let r ← parseGo ts fuel (.cmpR pos)
    parseGo ts fuel (.andLoopR r.1 r.2)
  | fuel + 1, .andLoopR node pos =>
    if ts.peekTok pos == some .DblAmp then do
      let r ← parseGo ts fuel (.cmpR (pos + 1))
      parseGo ts fuel (.andLoopR (.Bin .And node r.1) r.2)
    else .ok (node, pos)
  | fuel + 1, .cmpR pos => do
    let r ← parseGo ts fuel (.addR pos)
    let op : Option BinOp :=
      match ts.peekTok r.2 with
      | some .EqEq => some .Eq
      | some .Equal => some .Eq
      | some .Neq => some .Ne
      | some .Le => some .Le
      | some .Ge => some .Ge
      | some .Lt => some .Lt
      | some .Gt => some .Gt
      | _ => none
    match op with
    | some op => do
        let rhs ← parseGo ts fuel (.addR (r.2 + 1))
        .ok (.Bin op r.1 rhs.1, rhs.2)
    | none => .ok r
  | fuel + 1, .addR pos => do
    let r ← parseGo ts fuel (.mulR pos)
    parseGo ts fuel (.addLoopR r.1 r.2)
  | fuel + 1, .addLoopR node pos =>
    (match (if ts.peekTok pos == some .Plus then some BinOp.Add
            else if ts.peekTok pos == some .Minus then some BinOp.Sub
            else none) with
     | some op => do
        let r ← parseGo ts fuel (.mulR (pos + 1))
        parseGo ts fuel (.addLoopR (.Bin op node r.1) r.2)
     | none => .ok (node, pos))
  | fuel + 1, .mulR pos => do
    let r ← parseGo ts fuel (.powR pos)
    parseGo ts fuel (.mulLoopR r.1 r.2)
  | fuel + 1, .mulLoopR node pos =>
    (match (if ts.peekTok pos == some .Star then some BinOp.Mul
            else if ts.peekTok pos == some .Slash then some BinOp.Div
            else if ts.peekTok pos == some .Percent then some BinOp.Mod
            else none) with
     | some op => do
        let r ← parseGo ts fuel (.powR (pos + 1))
        parseGo ts fuel (.mulLoopR (.Bin op node r.1) r.2)
     | none => .ok (node, pos))
  | fuel + 1, .powR pos => do
    let r ← parseGo ts fuel (.unaryR pos)
    if ts.peekTok r.2 == some .Caret then do
      let rhs ← parseGo ts fuel (.powR (r.2 + 1))
      .ok (.Bin .Pow r.1 rhs.1, rhs.2)
    else .ok r
  | fuel + 1, .unaryR pos =>
    let m := eatTok ts pos .Minus
    if m.1 then do
      let e ← parseGo ts fuel (.unaryR m.2)
      .ok (.Unary .Neg e.1, e.2)
    else
      let bg := eatTok ts pos .Bang
      if bg.1 then do
        let e ← parseGo ts fuel (.unaryR bg.2)
        .ok (.Unary .Not e.1, e.2)
      else parseGo ts fuel (.postfixR pos)
  | fuel + 1, .postfixR pos => do
    let p ← parseGo ts fuel (.primaryR pos)
    parseGo ts fuel (.funCallsR p.1 p.2)
  | fuel + 1, .funCallsR node pos =>
    if ts.peekTok pos == some .LParen then do
      let al ← parseGo ts fuel (.argListR (pos + 1))
      let pos2 ← expectTok ts al.2 .RParen "closing ')' of call"
      let node2 ← attachCallToNode ts pos2 node al.1
      parseGo ts fuel (.funCallsR node2 pos2)
    else .ok (node, pos)
  | fuel + 1, .primaryR pos =>
    (match ts.nextTok pos with
     | some (.Number s, p) => parseNumberTok ts p s
     | some (.Bool b, p) => .ok (.Bool b, p)
     | some (.Ident s, p) => .ok (.Ident s, p)
     | some (.At, p) => parseAlgorithmCall ts p
     | some (.LParen, p) => parseGo ts fuel (.parenR p)
     | some (t, p) =>
        .error (errMsgAt ts p ("unexpected token in expression: " ++ debugOptionToken (some t)))
     | none =>
        .error (errMsgAt ts pos ("unexpected token in expression: " ++ debugOptionToken none)))
  | fuel + 1, .parenR pos => do
    let e ← parseGo ts fuel (.exprR pos)
    (match ts.nextTok e.2 with
     | some (.RParen, p) => .ok (e.1, p)
     | some (t, p) => .error (errMsgAt ts p ("expected ')', got " ++ debugOptionToken (some t)))
     | none => .error (errMsgAt ts e.2 ("expected ')', got " ++ debugOptionToken none)))
  | fuel + 1, .argListR pos =>
    (match ts.peekTok pos with
     | some t =>
       if t == .RParen then .ok ([], pos)
       else do
         let e ← parseGo ts fuel (.exprR pos)
         parseGo ts fuel (.argLoopR [e.1] e.2)
     | none => .ok ([], pos))
  | fuel + 1, .argLoopR args pos =>
    if ts.peekTok pos == some .Comma then do
      let e ← parseGo ts fuel (.exprR (pos + 1))
      parseGo ts fuel (.argLoopR (args ++ [e.1]) e.2)
    else .ok (args, pos)
termination_by structural fuel _req => fuel

/-- Embedding of `parse_expr`. -/
def parseExpr (ts : Tokens) (fuel pos : Nat) : Except String (Expr × Nat) :=
  parseGo ts fuel (.exprR pos)

/-- Embedding of `parse_case`. -/
def parseCase (ts : Tokens) (fuel pos : Nat) : Except String (Expr × Nat) :=
  parseGo ts fuel (.caseR pos)

/-- The arm-collecting loop of `parse_case`. -/
def parseCaseLoop (ts : Tokens) (fuel pos : Nat) (arms : List (Expr × Expr))
    (dflt : Option Expr) : Except String (List (Expr × Expr) × Option Expr × Nat) :=
  parseGo ts fuel (.caseLoopR pos arms dflt)

/-- Embedding of `parse_default_arm`. -/
def parseDefaultArm (ts : Tokens) (fuel pos : Nat) : Except String (Expr × Nat) :=
  parseGo ts fuel (.defaultArmR pos)

/-- Embedding of `parse_conditional_arm`. -/
def parseConditionalArm (ts : Tokens) (fuel pos : Nat) (arms : List (Expr × Expr)) :
    Except String (List (Expr × Expr) × Nat) :=
  parseGo ts fuel (.condArmR pos arms)

/-- Embedding of `parse_question_arm`. -/
def parseQuestionArm (ts : Tokens) (fuel pos : Nat) (arms : List (Expr × Expr))
    (cond : Expr) : Except String (List (Expr × Expr) × Nat) :=
  parseGo ts fuel (.questionArmR pos arms cond)

/-- Embedding of `parse_pipe`. -/
def parsePipe (ts : Tokens) (fuel pos : Nat) : Except String (Expr × Nat) :=
  parseGo ts fuel (.pipeR pos)

/-- Embedding of `parse_or`. -/
def parseOr (ts : Tokens) (fuel pos : Nat) : Except String (Expr × Nat) :=
  parseGo ts fuel (.orR pos)

/-- Embedding of `parse_cmp`. -/
def parseCmp (ts : Tokens) (fuel pos : Nat) : Except String (Expr × Nat) :=
  parseGo ts fuel (.cmpR pos)

/-- Embedding of `parse_pow`. -/
def parsePow (ts : Tokens) (fuel pos : Nat) : Except String (Expr × Nat) :=
  parseGo ts fuel (.powR pos)

/-- The parameter-name loop of `parse_parameter_list`. -/
def parseParameterListLoop (ts : Tokens) : Nat → Nat → List String → Except String (List String × Nat)
  | 0, _, _ => .error outOfFuelMsg
  | fuel + 1, pos, params =>
    match ts.peekTok pos with
    | some (.Ident s) =>
        let ec := eatTok ts (pos + 1) .Comma
        if ec.1 then parseParameterListLoop ts fuel ec.2 (params ++ [s])
        else .ok (params ++ [s], ec.2)
    | _ => .ok (params, pos)

/-- Embedding of `parse_alg_def`: `@ Ident ( params ) = Expr`. -/
def parseAlgDef (ts : Tokens) (fuel pos : Nat) : Except String (AlgorithmDef × Nat) := do
  let p1 ← expectTok ts pos .At "algorithm start '@'"
  let nm ← parseAlgorithmName ts p1
  let p2 ← expectTok ts nm.2 .LParen "parameter list '('"
  let ps ← parseParameterListLoop ts fuel p2 []
  let p3 ← expectTok ts ps.2 .RParen "parameter list ')'"
  let p4 ← expectTok ts p3 .Equal "definition '='"
  let b ← parseExpr ts fuel p4
  .ok (⟨nm.1, ps.1, b.1⟩, b.2)

/-- Build the parser state the REPL builds for an input line. -/
def tokensOf (input : String) : Tokens :=
  ⟨lex (strBytes input), strBytes input⟩

/-! Evaluator, from `src/eval.rs`. -/

/-- Runtime values, one constructor per variant of the Rust `Value` enum. -/
inductive Value where
  | Number (x : F64)
  | Bool (b : Bool)
deriving DecidableEq, Repr

/-- Rendering of a value inside kind-mismatch messages (Rust formats the
derived Debug form; no theorem inspects these payloads). -/
def debugValue : Value → String
  | .Number _ => "Number"
  | .Bool _ => "Bool"

/-- Model of `Value::as_f64`. -/
def asF64 : Value → Except String F64
  | .Number x => .ok x
  | other => .error ("expected number, got " ++ debugValue other)

/-- Model of `Value::as_bool`. -/
def asBool : Value → Except String Bool
  | .Bool b => .ok b
  | other => .error ("expected bool, got " ++ debugValue other)

/-- Environment of one evaluation frame.  The Rust `HashMap` is modelled
by its lookup function; `insert` overwrites, exactly as `HashMap::insert`
does. -/
structure Env where
  vars : String → Option Value

/-- Model of `HashMap::insert` on the environment. -/
def Env.insert (e : Env) (k : String) (v : Value) : Env :=
  ⟨fun y => if y = k then some v else e.vars y⟩

/-- Model of `Env::get`. -/
def Env.get (e : Env) (name : String) : Option Value := e.vars name

/-- The empty map `HashMap::new()`. -/
def Env.emptyEnv : Env := ⟨fun _ => none⟩

/-- Embedding of `Env::with_params`: check the argument count, bind the
parameters in order, then insert the built-in constants `inf` and `NaN`
(after the parameters, so the constants win on a name collision). -/
def Env.withParams (params : List String) (args : List Value) : Except String Env :=
  if params.length ≠ args.length then
    .error ("argument count mismatch: expected " ++ toString params.length ++
      ", got " ++ toString args.length)
  else
    let base := (params.zip args).foldl (fun m pv => m.insert pv.1 pv.2) Env.emptyEnv
    .ok ((base.insert "inf" (.Number .inf)).insert "NaN" (.Number .nan))

/-- Embedding of `Env::base`: just the two built-in constants. -/
def Env.base : Env :=
  (Env.emptyEnv.insert "inf" (.Number .inf)).insert "NaN" (.Number .nan)

/-- The registry.  The Rust `HashMap<String, &AlgorithmDef>` is modelled
by its lookup function. -/
structure World where
  algs : String → Option AlgorithmDef

/-- Embedding of `World::new`: insert every definition in order, so a
later definition with the same name overwrites an earlier one. -/
def World.new (defs : List AlgorithmDef) : World :=
  ⟨defs.foldl (fun m d => fun n => if n = d.name then some d else m n) (fun _ => none)⟩

/-- Embedding of `num_eq` (`src/eval.rs`): floating-point equality with
the NaN-aware rule that makes `NaN == NaN` true. -/
def numEq (a b : F64) : Bool :=
  if a.isNan && b.isNan then true else F64.beq a b

/-- The operator dispatch of `eval_expr`'s `Bin` arm, after both operands
are evaluated.  The Rust `match op` at eval.rs:138-151 covers `Add Sub
Mul Div Eq Ne Lt Le Gt Ge And Or` and has no arm for `Pow` or `Mod`: the
match is non-exhaustive over `BinOp` and the crate does not compile.  The
embedding keeps the evaluator total by mapping the two missing arms to a
distinguished runtime error. -/
def evalBinOp : BinOp → Value → Value → Except String Value
  | .Add, lv, rv => do .ok (.Number (F64.add (← asF64 lv) (← asF64 rv)))
  | .Sub, lv, rv => do .ok (.Number (F64.sub (← asF64 lv) (← asF64 rv)))
  | .Mul, lv, rv => do .ok (.Number (F64.mul (← asF64 lv) (← asF64 rv)))
  | .Div, lv, rv => do .ok (.Number (F64.div (← asF64 lv) (← asF64 rv)))
  | .Eq, lv, rv => do .ok (.Bool (numEq (← asF64 lv) (← asF64 rv)))
  | .Ne, lv, rv => do .ok (.Bool (!numEq (← asF64 lv) (← asF64 rv)))
  | .Lt, lv, rv => do .ok (.Bool (F64.lt (← asF64 lv) (← asF64 rv)))
  | .Le, lv, rv => do .ok (.Bool (F64.le (← asF64 lv) (← asF64 rv)))
  | .Gt, lv, rv => do .ok (.Bool (F64.gt (← asF64 lv) (← asF64 rv)))
  | .Ge, lv, rv => do .ok (.Bool (F64.ge (← asF64 lv) (← asF64 rv)))
  | .And, lv, rv => do .ok (.Bool ((← asBool lv) && (← asBool rv)))
  | .Or, lv, rv => do .ok (.Bool ((← asBool lv) || (← asBool rv)))
  | .Pow, _, _ => .error "MISSING MATCH ARM: BinOp::Pow has no case in eval_expr"
  | .Mod, _, _ => .error "MISSING MATCH ARM: BinOp::Mod has no case in eval_expr"

/-- The built-in function table of `call_name` (`sqrt` and `abs`). -/
def builtinCall (name : String) (vals : List Value) : Except String Value :=
  if name == "sqrt" then
    if vals.length != 1 then
      .error ("sqrt expects 1 arg, got " ++ toString vals.length)
    else do
      .ok (.Number (F64.sqrt (← asF64 (vals.getD 0 (.Bool false)))))
  else if name == "abs" then
    if vals.length != 1 then
      .error ("abs expects 1 arg, got " ++ toString vals.length)
    else do
      .ok (.Number (F64.abs (← asF64 (vals.getD 0 (.Bool false)))))
  else .error ("unknown function: " ++ name)

/-- Evaluation requests: one constructor per Rust evaluator function
(`eval_expr`, its argument loop, its case-arm loop, `call_name`, the
pipe-step loop and `apply_step`). -/
inductive EReq where
  | exprR (env : Env) (e : Expr)
  | argsR (env : Env) (es : List Expr)
  | callR (env : Env) (isAlg : Bool) (name : String) (vals : List Value)
  | armsR (env : Env) (arms : List (Expr × Expr)) (dflt : Expr)
  | stepsR (env : Env) (es : List Expr) (v : Value)
  | stepR (env : Env) (s : Expr) (v : Value)

/-- Result type of each evaluation request. -/
def EResTy : EReq → Type
  | .argsR .. => List Value
  | _ => Value

/-- The whole tree-walking evaluator, one Rust function per request arm;
faithful to `eval_expr`, `call_name` and `apply_step` including the
missing `Pow`/`Mod` arms (through `evalBinOp`). -/
def evalGo (w : World) : (fuel : Nat) → (req : EReq) → Except String (EResTy req)
  | fuel, .exprR env e =>
    match e with
    | .Number x => .ok (.Number x)
    | .Bool b => .ok (.Bool b)
    | .Ident name =>
      (match env.get name with
       | some v => .ok v
       | none => .error ("unknown identifier: " ++ name))
    | .Unary op e1 => do
      let v ← evalGo w fuel (.exprR env e1)
      match op with
      | .Neg => do .ok (.Number (F64.neg (← asF64 v)))
      | .Not => do .ok (.Bool (!(← asBool v)))
    | .Bin op l r => do
      let lv ← evalGo w fuel (.exprR env l)
      let rv ← evalGo w fuel (.exprR env r)
      evalBinOp op lv rv
    | .Case arms dflt => evalGo w fuel (.armsR env arms dflt)
    | .Call isAlg name args => do
      let vals ← evalGo w fuel (.argsR env args)
      evalGo w fuel (.callR env isAlg name vals)
    | .Pipe head steps => do
      let v ← evalGo w fuel (.exprR env head)
      evalGo w fuel (.stepsR env steps v)
  | fuel, .argsR env es =>
    match es with
    | [] => .ok []
    | a :: rest => do
      let v ← evalGo w fuel (.exprR env a)
      let vs ← evalGo w fuel (.argsR env rest)
      .ok (v :: vs)
  | fuel, .callR _env isAlg name vals =>
    if isAlg || (w.algs name).isSome then
      match w.algs name with
      | none => .error ("unknown algorithm: " ++ name)
      | some alg => do
        let frame ← Env.withParams alg.params vals
        match fuel with
        | 0 => .error outOfFuelMsg
        | f + 1 => evalGo w f (.exprR frame alg.body)
    else builtinCall name vals
  | fuel, .armsR env arms dflt =>
    match arms with
    | [] => evalGo w fuel (.exprR env dflt)
    | (cond, rhs) :: rest => do
      let c ← evalGo w fuel (.exprR env cond)
      let b ← asBool c
      if b then evalGo w fuel (.exprR env rhs)
      else evalGo w fuel (.armsR env rest dflt)
  | fuel, .stepsR env es v =>
    match es with
    | [] => .ok v
    | s :: rest => do
      let v2 ← evalGo w fuel (.stepR env s v)
      evalGo w fuel (.stepsR env rest v2)
  | fuel, .stepR env s v =>
    match s with
    | .Call isAlg name args => do
      let vs ← evalGo w fuel (.argsR env args)
      evalGo w fuel (.callR env isAlg name (v :: vs))
    | .Ident name => evalGo w fuel (.callR env false name [v])
    | other =>
      .error ("pipeline step must be a call or name, got " ++ debugExpr other)
termination_by fuel req =>
  (fuel, match req with
         | .exprR _ e => 1 + sizeOf e
         | .argsR _ es => 1 + sizeOf es
         | .callR _ _ _ _ => 0
         | .armsR _ arms dflt => 1 + sizeOf arms + sizeOf dflt
         | .stepsR _ es _ => 1 + sizeOf es
         | .stepR _ s _ => 1 + sizeOf s)
decreasing_by all_goals (simp; omega)

/-- Embedding of `eval_expr`. -/
def evalExpr (w : World) (fuel : Nat) (env : Env) (e : Expr) : Except String Value :=
  evalGo w fuel (.exprR env e)

/-- Embedding of `call_name`. -/
def callName (w : World) (fuel : Nat) (env : Env) (isAlg : Bool) (name : String)
    (vals : List Value) : Except String Value :=
  evalGo w fuel (.callR env isAlg name vals)

/-- Embedding of `apply_step`. -/
def applyStep (w : World) (fuel : Nat) (env : Env) (s : Expr) (v : Value) :
    Except String Value :=
  evalGo w fuel (.stepR env s v)

/-- Embedding of `Repl::add_or_replace_algorithm` (`src/repl.rs`): replace
the first definition with the same name in place, else push at the end. -/
def addOrReplaceAlgorithm : List AlgorithmDef → AlgorithmDef → List AlgorithmDef
  | [], d => [d]
  | x :: rest, d =>
    if x.name = d.name then d :: rest else x :: addOrReplaceAlgorithm rest d

/-! Helper definitions used by the theorems. -/

/-- Whether an expression has one of the two shapes `apply_step` accepts
as a pipeline step (a call node or a bare identifier). -/
def isStepForm : Expr → Bool
  | .Call _ _ _ => true
  | .Ident _ => true
  | _ => false

/-- The nested-call reading of pipe threading: attach the previous stage
as the implicit first argument of the step. -/
def attachStep (prev : Expr) : Expr → Expr
  | .Call isAlg name args => .Call isAlg name (prev :: args)
  | .Ident name => .Call false name [prev]
  | other => other

/-- The registry lookup the spec describes (stated in the spec's words,
for comparison with `World.new`): each name maps to the most recently
defined `AlgorithmDef` carrying that name. -/
def specLastDefinition (defs : List AlgorithmDef) (n : String) : Option AlgorithmDef :=
  defs.reverse.find? (fun d => d.name == n)

/-- Bytes no lexer rule recognizes: not whitespace, not in the operator
tables (the lone `&` is excluded because `&&` is recognized), not a
quote, not an identifier start, not a digit. -/
def unknownByte (b : Nat) : Bool :=
  !(isAsciiWhitespaceB b) && (singleCharTok b).isNone && !(b == 34) &&
    !(isIdentStartB b) && !(isDigitB b) && !(b == 38)

/-- The tree both `[x>0 ? 1 | -1; _ -> 0]` and
`[x>0 -> 1; !(x>0) -> -1; _ -> 0]` parse to. -/
def ternaryTree : Expr :=
  .Case [(.Bin .Gt (.Ident "x") (.Number (.fin 0)), .Number (.fin 1)),
         (.Unary .Not (.Bin .Gt (.Ident "x") (.Number (.fin 0))),
          .Unary .Neg (.Number (.fin 1)))]
    (.Number (.fin 0))

/-! Theorems. -/

/-- Claim C1: the spec says `^` evaluates as native floating power (and
`%` as floating remainder), with `2 ^ 3 ^ 2` returning `Number(512)`.
The parser does produce the right-associative `Pow` tree, but the
operator match in `eval_expr` (eval.rs:138-151) has no arm for
`BinOp::Pow` or `BinOp::Mod` — a non-exhaustive match, so the crate does
not even compile and evaluation has no rule for either operator; the
embedding maps the missing arms to a distinguished error, and `2 ^ 3 ^ 2`
never evaluates to `Number(512)`. -/
theorem pow_parse_right_assoc_but_eval_has_no_rule :
    parseExpr (tokensOf "2 ^ 3 ^ 2") 50 0 =
      .ok (.Bin .Pow (.Number (.fin 2)) (.Bin .Pow (.Number (.fin 3)) (.Number (.fin 2))), 5)
    ∧ (∀ w fuel env, evalExpr w fuel env
        (.Bin .Pow (.Number (.fin 2)) (.Bin .Pow (.Number (.fin 3)) (.Number (.fin 2)))) =
        .error "MISSING MATCH ARM: BinOp::Pow has no case in eval_expr")
    ∧ (∀ w fuel env, evalExpr w fuel env
        (.Bin .Mod (.Number (.fin 7)) (.Number (.fin 2))) =
        .error "MISSING MATCH ARM: BinOp::Mod has no case in eval_expr")
    ∧ (∀ w fuel env, evalExpr w fuel env
        (.Bin .Pow (.Number (.fin 2)) (.Bin .Pow (.Number (.fin 3)) (.Number (.fin 2)))) ≠
        .ok (.Number (.fin 512))) := by
  refine ⟨rfl, ?_, ?_, ?_⟩
  · intro w fuel env
    simp [evalExpr, evalGo, evalBinOp, bind, Except.bind]
  · intro w fuel env
    simp [evalExpr, evalGo, evalBinOp, bind, Except.bind]
  · intro w fuel env
    simp [evalExpr, evalGo, evalBinOp, bind, Except.bind]

/-- Claim C2 counterexample: the claim says a chained comparison
`a < b < c` is a fatal grammar error and is never silently accepted; in
fact the parse succeeds, returning the single comparison `a < b` with
two of the five tokens left unconsumed. -/
theorem chained_cmp_accepted_counterexample :
    (parseExpr (tokensOf "a < b < c") 50 0).isOk = true
    ∧ parseExpr (tokensOf "a < b < c") 50 0 =
        .ok (.Bin .Lt (.Ident "a") (.Ident "b"), 3)
    ∧ (tokensOf "a < b < c").items.length = 5 :=
  ⟨rfl, rfl, rfl⟩

/-- Claim C2, amended: `parse_cmp` consumes at most one comparison
operator; for `a < b < c` the parse succeeds with `a < b` after three
tokens, and the remaining tokens `< c` stay unconsumed (the REPL's
expression handler never checks for leftovers, so they are silently
dropped; no grammar error is raised). -/
theorem chained_cmp_single_comparison_tokens_dropped :
    parseExpr (tokensOf "a < b < c") 50 0 =
      .ok (.Bin .Lt (.Ident "a") (.Ident "b"), 3)
    ∧ (tokensOf "a < b < c").items.drop 3 =
        [mkSpan .Lt 6 7, mkSpan (.Ident "c") 8 9] :=
  ⟨rfl, rfl⟩

/-- Claim C8: parsing `@Add(a,b) = a +` fails while reading the missing
right operand; the reported byte is 15, the end of the last consumed
token `+` (equal to the input length, i.e. end of input), and the
rendered diagnostic places the caret at column 16 with fifteen spaces of
padding, immediately after the `+`. -/
theorem missing_operand_caret_at_end_of_input :
    parseAlgDef (tokensOf "@Add(a,b) = a +") 50 0 =
      .error (caretMessage (strBytes "@Add(a,b) = a +") 15
        "unexpected token in expression: None")
    ∧ errByteAt (tokensOf "@Add(a,b) = a +") 10 = 15
    ∧ (strBytes "@Add(a,b) = a +").length = 15
    ∧ ((tokensOf "@Add(a,b) = a +").items.getLast?).map TokSpan.stop = some 15
    ∧ caretMessage (strBytes "@Add(a,b) = a +") 15 "unexpected token in expression: None" =
        "error: unexpected token in expression: None \n --> input:1:16\n  1 | @Add(a,b) = a +\n |                ^ here" :=
  ⟨rfl, rfl, rfl, rfl, rfl⟩

/-- Claim C4: evaluating `a == b` on number values returns
`Bool (num_eq a b)`, `!=` returns its negation, and `num_eq` holds
exactly when the operands are equal as floats or both are NaN; in
particular `NaN == NaN` is true. -/
theorem num_eq_nan_aware (w : World) (fuel : Nat) (env : Env) (a b : F64) :
    evalExpr w fuel env (.Bin .Eq (.Number a) (.Number b)) = .ok (.Bool (numEq a b))
    ∧ evalExpr w fuel env (.Bin .Ne (.Number a) (.Number b)) = .ok (.Bool (!numEq a b))
    ∧ (numEq a b = true ↔ (F64.beq a b = true ∨ (a.isNan = true ∧ b.isNan = true)))
    ∧ numEq .nan .nan = true := by
  refine ⟨?_, ?_, ?_, rfl⟩
  · simp [evalExpr, evalGo, evalBinOp, asF64, bind, Except.bind]
  · simp [evalExpr, evalGo, evalBinOp, asF64, bind, Except.bind]
  · cases a <;> cases b <;> simp [numEq, F64.beq, F64.isNan]

/-- Claim C10: every frame `Env::with_params` builds maps `inf` to the
number `+inf` and `NaN` to the NaN number, even when a formal parameter
carries one of those names, because the two constants are inserted after
the parameter bindings; an identifier lookup of `inf` in such a frame
always yields the constant, so the call-site argument for a parameter
named `inf` or `NaN` is unreachable. -/
theorem with_params_constants_shadow_params (params : List String) (args : List Value)
    (h : params.length = args.length) :
    (Env.withParams params args).map (fun e => e.get "inf") = .ok (some (.Number .inf))
    ∧ (Env.withParams params args).map (fun e => e.get "NaN") = .ok (some (.Number .nan))
    ∧ (Env.withParams params args).map
        (fun e => evalExpr (World.new []) 1 e (.Ident "inf")) =
        .ok (.ok (.Number .inf)) := by
  refine ⟨?_, ?_, ?_⟩ <;>
    simp [Env.withParams, h, Env.insert, Env.get, Env.emptyEnv, evalExpr, evalGo,
      World.new, Except.map]

/-- Witness for C10 at a frame whose only parameter is itself named
`inf`, bound to 3 at the call site: the frame still reports `+inf`. -/
theorem with_params_constants_shadow_params_witness :
    (["inf"].length = [Value.Number (F64.fin 3)].length)
    ∧ (Env.withParams ["inf"] [.Number (.fin 3)]).map (fun e => e.get "inf") =
        .ok (some (.Number .inf)) :=
  ⟨rfl, (with_params_constants_shadow_params ["inf"] [.Number (.fin 3)] rfl).1⟩

/-- Lookup through the insertion fold of `World::new`: the last
definition with a given name wins over both earlier definitions and the
initial map. -/
theorem worldNewFoldLookup (defs : List AlgorithmDef) (m : String → Option AlgorithmDef)
    (n : String) :
    (defs.foldl (fun m d => fun x => if x = d.name then some d else m x) m) n =
      (match specLastDefinition defs n with
       | some d => some d
       | none => m n) := by
  induction defs generalizing m with
  | nil => simp [specLastDefinition]
  | cons d rest ih =>
    simp only [List.foldl_cons, ih, specLastDefinition, List.reverse_cons, List.find?_append]
    cases hf : rest.reverse.find? (fun d => d.name == n) with
    | some x => simp [hf, Option.orElse]
    | none =>
      by_cases hdn : d.name = n
      · subst hdn; simp [hf, Option.orElse]
      · simp [hf, Option.orElse]
        rw [if_neg hdn, if_neg (fun h => hdn h.symm)]

/-- Lookup after `add_or_replace_algorithm`: the upserted definition is
found under its own name, and lookups under other names are unchanged. -/
theorem addOrReplaceFindLookup (defs : List AlgorithmDef) (d : AlgorithmDef) (n : String) :
    (addOrReplaceAlgorithm defs d).find? (fun x => x.name == n) =
      (if d.name == n then some d else defs.find? (fun x => x.name == n)) := by
  induction defs with
  | nil => by_cases h : d.name = n <;> simp [addOrReplaceAlgorithm, h]
  | cons x rest ih =>
    simp only [addOrReplaceAlgorithm]
    by_cases hx : x.name = d.name
    · rw [if_pos hx]
      by_cases h : d.name = n
      · simp [h]
      · have hxn : ¬ x.name = n := by rw [hx]; exact h
        simp [h, hxn]
    · rw [if_neg hx]
      by_cases hxn : x.name = n
      · have hdn : ¬ d.name = n := fun hh => hx (hxn.trans hh.symm)
        simp [hxn, hdn]
      · simp [hxn, ih]

/-- Claim C6: the registry maps each name to its most recently defined
algorithm (last-write-wins, both through `World::new`'s insertion order
and through the REPL's in-place upsert); after `@F(x) = x + 1` is
replaced by `@F(x) = x * 2`, calling `F(3)` yields 6, never 4. -/
theorem registry_last_write_wins :
    (∀ defs n, (World.new defs).algs n = specLastDefinition defs n)
    ∧ (∀ defs d n, (addOrReplaceAlgorithm defs d).find? (fun x => x.name == n) =
        (if d.name == n then some d else defs.find? (fun x => x.name == n)))
    ∧ evalExpr (World.new (addOrReplaceAlgorithm (addOrReplaceAlgorithm []
        ⟨"F", ["x"], .Bin .Add (.Ident "x") (.Number (.fin 1))⟩)
        ⟨"F", ["x"], .Bin .Mul (.Ident "x") (.Number (.fin 2))⟩)) 1 Env.base
        (.Call false "F" [.Number (.fin 3)]) = .ok (.Number (.fin 6))
    ∧ (Except.ok (Value.Number (F64.fin 6)) : Except String Value) ≠
        .ok (.Number (.fin 4)) := by
  refine ⟨?_, addOrReplaceFindLookup, ?_, by norm_num⟩
  · intro defs n
    show (defs.foldl (fun m d => fun x => if x = d.name then some d else m x)
      (fun _ => none)) n = _
    rw [worldNewFoldLookup]
    cases specLastDefinition defs n <;> rfl
  · simp [evalExpr, evalGo, World.new, addOrReplaceAlgorithm, Env.withParams,
      Env.insert, Env.emptyEnv, Env.get, evalBinOp, asF64, F64.mul, Env.base,
      bind, Except.bind]
    norm_num

set_option maxHeartbeats 2000000 in
/-- Claim C7: a `cond ? then | else` arm appends exactly the two arms
`(cond, then)` and `(not cond, else)`, in that order, to the enclosing
case's arm list; consequently `[x>0 ? 1 | -1; _ -> 0]` and its two-arm
spelling `[x>0 -> 1; !(x>0) -> -1; _ -> 0]` parse to the identical tree. -/
theorem ternary_desugar_two_arms :
    (∀ ts fuel pos arms cond thenE p1 elseE p2,
       parseExpr ts fuel pos = .ok (thenE, p1) →
       ts.peekTok p1 = some .Pipe →
       parseExpr ts fuel (p1 + 1) = .ok (elseE, p2) →
       parseQuestionArm ts (fuel + 1) pos arms cond =
         .ok (arms ++ [(cond, thenE), (.Unary .Not cond, elseE)], p2))
    ∧ parseExpr (tokensOf "[x>0 ? 1 | -1; _ -> 0]") 50 0 = .ok (ternaryTree, 14)
    ∧ parseExpr (tokensOf "[x>0 -> 1; !(x>0) -> -1; _ -> 0]") 50 0 =
        .ok (ternaryTree, 21) := by
  refine ⟨?_, ?_, ?_⟩
  · intro ts fuel pos arms cond thenE p1 elseE p2 h1 h2 h3
    rw [parseExpr] at h1 h3
    have he : eatTok ts p1 .Pipe = (true, p1 + 1) := by simp [eatTok, h2]
    have he2 : (eatTok ts p1 .Pipe).2 = p1 + 1 := by rw [he]
    simp only [parseQuestionArm, parseGo, h1, he, bind, Except.bind]
    rw [he2, h3]
    simp
  · rfl
  · rfl

/-- Witness for C7: instantiating the desugaring on the token stream of
`1 | 2` with condition `true`: the two arms appear in order. -/
theorem ternary_desugar_two_arms_witness :
    (parseExpr (tokensOf "1 | 2") 20 0 = .ok (.Number (.fin 1), 1)
     ∧ (tokensOf "1 | 2").peekTok 1 = some .Pipe
     ∧ parseExpr (tokensOf "1 | 2") 20 2 = .ok (.Number (.fin 2), 3))
    ∧ parseQuestionArm (tokensOf "1 | 2") 21 0 [] (.Bool true) =
        .ok ([(.Bool true, .Number (.fin 1)), (.Unary .Not (.Bool true), .Number (.fin 2))], 3) :=
  ⟨⟨rfl, rfl, rfl⟩,
    ternary_desugar_two_arms.1 (tokensOf "1 | 2") 20 0 [] (.Bool true)
      (.Number (.fin 1)) 1 (.Number (.fin 2)) 3 rfl rfl rfl⟩

/-- Evaluating a step with its incoming value attached as first argument
equals evaluating the incoming expression and then applying the step, for
the two step shapes `apply_step` accepts. -/
theorem eval_attachStep (w : World) (fuel : Nat) (env : Env) (h s : Expr)
    (hs : isStepForm s = true) :
    evalGo w fuel (.exprR env (attachStep h s)) =
      (do
        let v ← evalGo w fuel (.exprR env h)
        evalGo w fuel (.stepR env s v)) := by
  cases s with
  | Call isAlg name args =>
    cases hh : evalGo w fuel (.exprR env h) with
    | error e => simp [attachStep, evalGo, hh, bind, Except.bind]
    | ok v =>
      cases ha : evalGo w fuel (.argsR env args) with
      | error e => simp [attachStep, evalGo, hh, ha, bind, Except.bind]
      | ok vs => simp [attachStep, evalGo, hh, ha, bind, Except.bind]
  | Ident name =>
    cases hh : evalGo w fuel (.exprR env h) with
    | error e => simp [attachStep, evalGo, hh, bind, Except.bind]
    | ok v => simp [attachStep, evalGo, hh, bind, Except.bind]
  | Number x => exact absurd hs (by simp [isStepForm])
  | Bool b => exact absurd hs (by simp [isStepForm])
  | Unary op e => exact absurd hs (by simp [isStepForm])
  | Bin op l r => exact absurd hs (by simp [isStepForm])
  | Case arms dflt => exact absurd hs (by simp [isStepForm])
  | Pipe hd st => exact absurd hs (by simp [isStepForm])

/-- Claim C5: a pipe evaluates its head once and applies the steps left
to right, each step receiving the previous value as an implicit first
argument ahead of its own (later-evaluated) arguments: the whole pipe
evaluates exactly like the nested call expression obtained by folding
each step over the head.  In particular `4 >> sqrt >> sqrt` evaluates to
`sqrt(sqrt(4))`. -/
theorem pipe_eval_equals_nested_calls (w : World) (fuel : Nat) (env : Env)
    (head : Expr) (steps : List Expr) (h : steps.all isStepForm = true) :
    evalExpr w fuel env (.Pipe head steps) =
      evalExpr w fuel env (steps.foldl attachStep head) := by
  revert h
  induction steps generalizing head with
  | nil =>
    intro _
    show evalGo w fuel (.exprR env (.Pipe head [])) = evalExpr w fuel env head
    cases hh : evalGo w fuel (.exprR env head) with
    | error e => simp [evalGo, hh, bind, Except.bind, evalExpr]
    | ok v => simp [evalGo, hh, bind, Except.bind, evalExpr]
  | cons s rest ih =>
    intro h
    have hs : isStepForm s = true := by
      simp only [List.all_cons, Bool.and_eq_true] at h
      exact h.1
    have hrest : rest.all isStepForm = true := by
      simp only [List.all_cons, Bool.and_eq_true] at h
      exact h.2
    rw [List.foldl_cons, ← ih (attachStep head s) hrest]
    show evalGo w fuel (.exprR env (.Pipe head (s :: rest))) =
      evalGo w fuel (.exprR env (.Pipe (attachStep head s) rest))
    have key := eval_attachStep w fuel env head s hs
    cases hh : evalGo w fuel (.exprR env head) with
    | error e =>
      rw [hh] at key
      simp only [bind, Except.bind] at key
      simp [evalGo, hh, key, bind, Except.bind]
    | ok v =>
      rw [hh] at key
      simp only [bind, Except.bind] at key
      cases hstep : evalGo w fuel (.stepR env s v) with
      | error e =>
        rw [hstep] at key
        simp [evalGo, hh, key, bind, Except.bind, hstep]
      | ok v2 =>
        rw [hstep] at key
        simp [evalGo, hh, key, bind, Except.bind, hstep]

/-- Witness for C5: `4 >> sqrt >> sqrt` evaluates exactly like
`sqrt(sqrt(4))`. -/
theorem pipe_eval_equals_nested_calls_witness :
    ([Expr.Ident "sqrt", Expr.Ident "sqrt"].all isStepForm = true)
    ∧ evalExpr (World.new []) 5 Env.base
        (.Pipe (.Number (.fin 4)) [.Ident "sqrt", .Ident "sqrt"]) =
      evalExpr (World.new []) 5 Env.base
        (.Call false "sqrt" [.Call false "sqrt" [.Number (.fin 4)]]) :=
  ⟨rfl, pipe_eval_equals_nested_calls (World.new []) 5 Env.base
    (.Number (.fin 4)) [.Ident "sqrt", .Ident "sqrt"] rfl⟩

/-- If no `Underscore` token occurs in the stream, `eat` of `Underscore`
never consumes. -/
theorem eat_underscore_false (ts : Tokens) (pos : Nat)
    (h : Token.Underscore ∉ ts.items.map TokSpan.tok) :
    eatTok ts pos .Underscore = (false, pos) := by
  unfold eatTok Tokens.peekTok
  cases hg : ts.items.get? pos with
  | none => rfl
  | some sp =>
    have hmem : sp.tok ∈ ts.items.map TokSpan.tok :=
      List.mem_map.mpr ⟨sp, List.get?_mem hg, rfl⟩
    have hne : sp.tok ≠ .Underscore := fun he => h (he ▸ hmem)
    simp [hne]

/-- The case-arm loop never produces a default arm when the token stream
contains no `Underscore` token. -/
theorem caseLoop_no_default (ts : Tokens)
    (h : Token.Underscore ∉ ts.items.map TokSpan.tok) :
    ∀ fuel pos arms (r : List (Expr × Expr) × Option Expr × Nat),
      parseGo ts fuel (.caseLoopR pos arms none) = .ok r → r.2.1 = none := by
  intro fuel
  induction fuel with
  | zero =>
    intro pos arms r hr
    simp [parseGo] at hr
  | succ f ihf =>
    intro pos arms r hr
    simp only [parseGo, eat_underscore_false ts pos h, bind, Except.bind] at hr
    cases ha : parseGo ts f (.condArmR pos arms) with
    | error e => rw [ha] at hr; simp at hr
    | ok a =>
      rw [ha] at hr
      simp only [Bool.false_eq_true, if_false] at hr
      by_cases hsc : (eatTok ts a.2 .Semicolon).1 = true
      · rw [if_pos hsc] at hr
        exact ihf _ _ _ hr
      · rw [if_neg hsc] at hr
        cases hr
        rfl

/-- A case block whose token stream holds no `Underscore` token never
parses: the parse always aborts (when everything else is well-formed,
with the bare missing-default message). -/
theorem case_no_default_never_ok (ts : Tokens)
    (h : Token.Underscore ∉ ts.items.map TokSpan.tok) (fuel pos : Nat) :
    ∀ e p, parseCase ts fuel pos ≠ .ok (e, p) := by
  intro e p hr
  cases fuel with
  | zero => simp [parseCase, parseGo] at hr
  | succ f =>
    simp only [parseCase, parseGo, bind, Except.bind] at hr
    cases hx : expectTok ts pos .LBracket "case '['" with
    | error e1 => rw [hx] at hr; simp at hr
    | ok pos1 =>
      rw [hx] at hr
      simp only [] at hr
      cases hl : parseGo ts f (.caseLoopR pos1 [] none) with
      | error e2 => rw [hl] at hr; simp at hr
      | ok r =>
        rw [hl] at hr
        simp only [] at hr
        have hnone : r.2.1 = none := caseLoop_no_default ts h f pos1 [] r hl
        cases hx2 : expectTok ts r.2.2 .RBracket "closing ']'" with
        | error e3 => rw [hx2] at hr; simp at hr
        | ok pos2 =>
          rw [hx2] at hr
          simp only [] at hr
          rw [hnone] at hr
          simp at hr

/-- Every caret diagnostic rendered by `caret_message` spans several
lines (it always carries the `-->` locator on its own line). -/
theorem caretMessage_contains_newline (src : List Nat) (byte : Nat) (msg : String) :
    '\n' ∈ (caretMessage src byte msg).data := by
  simp [caretMessage, String.data_append, List.mem_append]

/-- Claim C3 counterexample: parsing the defaultless case block
`[1 -> 2]` aborts, but the diagnostic is the single-line bare message of
the `Option::expect` panic, not the multi-line caret rendering the claim
describes (no `-->` locator, no source line, no caret). -/
theorem missing_default_plain_diagnostic :
    parseExpr (tokensOf "[1 -> 2]") 50 0 =
      .error "case block missing default '_' ? expr"
    ∧ ('\n' ∈ ("case block missing default '_' ? expr").data) = False :=
  ⟨rfl, by simp⟩

/-- Claim C3, amended: a case block without a `_` default arm never
parses — the parse aborts fatally — but the missing-default diagnostic is
the bare panic message `case block missing default '_' ? expr` from
`Option::expect`, not the positional caret format (which always spans
multiple lines). -/
theorem case_without_default_never_parses :
    (∀ ts fuel pos, Token.Underscore ∉ ts.items.map TokSpan.tok →
      ∀ e p, parseCase ts fuel pos ≠ .ok (e, p))
    ∧ parseExpr (tokensOf "[1 -> 2]") 50 0 =
        .error "case block missing default '_' ? expr"
    ∧ (∀ src byte msg, '\n' ∈ (caretMessage src byte msg).data)
    ∧ ¬ '\n' ∈ ("case block missing default '_' ? expr").data := by
  refine ⟨?_, rfl, caretMessage_contains_newline, by simp⟩
  intro ts fuel pos hun
  exact case_no_default_never_ok ts hun fuel pos

/-- Witness for C3's amended statement at the concrete stream of
`[1 -> 2]`. -/
theorem case_without_default_never_parses_witness :
    (Token.Underscore ∉ (tokensOf "[1 -> 2]").items.map TokSpan.tok)
    ∧ (∀ e p, parseCase (tokensOf "[1 -> 2]") 50 0 ≠ .ok (e, p)) :=
  ⟨by decide, case_without_default_never_parses.1 (tokensOf "[1 -> 2]") 50 0 (by decide)⟩

/-- A line comment skip moves at least past the two slashes. -/
theorem skipLineEnd_ge (bytes : List Nat) (i : Nat) : i + 2 ≤ skipLineEnd bytes i := by
  simp [skipLineEnd]

/-- The block-comment scan terminates within `length - i` steps and never
moves backwards. -/
theorem consumeBlockLoop_total (bytes : List Nat) :
    ∀ fuel i depth, bytes.length - i < fuel →
      ∃ j, consumeBlockLoop bytes fuel i depth = some j ∧ i ≤ j := by
  intro fuel
  induction fuel with
  | zero => intro i depth hlt; omega
  | succ f ihf =>
    intro i depth hlt
    by_cases hi : i < bytes.length
    · simp only [consumeBlockLoop, if_pos hi]
      split
      · obtain ⟨j, hj, hij⟩ := ihf (i + 2) (depth + 1) (by omega)
        exact ⟨j, hj, by omega⟩
      · split
        · split
          · exact ⟨i + 2, rfl, by omega⟩
          · obtain ⟨j, hj, hij⟩ := ihf (i + 2) (depth - 1) (by omega)
            exact ⟨j, hj, by omega⟩
        · obtain ⟨j, hj, hij⟩ := ihf (i + 1) depth (by omega)
          exact ⟨j, hj, by omega⟩
    · exact ⟨i, by simp [consumeBlockLoop, hi], le_refl i⟩

/-- The string-literal scan terminates within `length - i` steps and
never moves backwards. -/
theorem lexStringLoop_total (bytes : List Nat) :
    ∀ fuel i s, bytes.length - i < fuel →
      ∃ c str j, lexStringLoop bytes fuel i s = some (c, str, j) ∧ i ≤ j := by
  intro fuel
  induction fuel with
  | zero => intro i s hlt; omega
  | succ f ihf =>
    intro i s hlt
    by_cases hi : i < bytes.length
    · simp only [lexStringLoop, if_pos hi]
      split
      · exact ⟨true, s, i + 1, rfl, by omega⟩
      · split
        · obtain ⟨c, str, j, hj, hij⟩ :=
            ihf (processEscape bytes (i + 1) s).2 (processEscape bytes (i + 1) s).1
              (by simp [processEscape]; omega)
          refine ⟨c, str, j, hj, ?_⟩
          simp [processEscape] at hij
          omega
        · obtain ⟨c, str, j, hj, hij⟩ := ihf (i + 1) (s.push (Char.ofNat (bytes.getD i 0)))
            (by omega)
          exact ⟨c, str, j, hj, by omega⟩
    · exact ⟨false, s, i, by simp [lexStringLoop, hi], le_refl i⟩

/-- The main lexer loop succeeds whenever its fuel exceeds the number of
bytes left to scan: every branch advances the index by at least one. -/
theorem lexLoop_total (bytes : List Nat) :
    ∀ fuel i, bytes.length - i < fuel → (lexLoop bytes fuel i).isSome = true := by
  intro fuel
  induction fuel with
  | zero => intro i h; omega
  | succ f ihf =>
    intro i hlt
    by_cases hi : i < bytes.length
    · simp only [lexLoop, if_pos hi]
      split
      · exact ihf (i + 1) (by omega)
      · split
        · rw [Option.isSome_map']
          exact ihf (i + 2) (by omega)
        · split
          · have hsk := skipLineEnd_ge bytes i
            exact ihf (skipLineEnd bytes i) (by omega)
          · split
            · obtain ⟨j, hj, hij⟩ := consumeBlockLoop_total bytes f (i + 2) 1 (by omega)
              rw [consumeBlockContent, hj]
              exact ihf j (by omega)
            · split
              · rw [Option.isSome_map']
                exact ihf (i + 1) (by omega)
              · split
                · obtain ⟨c, str, j, hj, hij⟩ :=
                    lexStringLoop_total bytes f (i + 1) "" (by omega)
                  have htok : ∃ tok, lexStringLiteral bytes f i = some (tok, j) := by
                    cases c
                    · exact ⟨mkSpan (.Error "unterminated string literal") i j,
                        by rw [lexStringLiteral, hj]; rfl⟩
                    · exact ⟨mkSpan (.String str) i j, by rw [lexStringLiteral, hj]; rfl⟩
                  obtain ⟨tok, htok⟩ := htok
                  rw [htok]
                  simp only []
                  rw [Option.isSome_map']
                  exact ihf j (by omega)
                · split
                  · rw [Option.isSome_map']
                    exact ihf (i + 1 + ((bytes.drop (i + 1)).takeWhile isIdentContinueB).length)
                      (by omega)
                  · split
                    · rw [Option.isSome_map']
                      split
                      · exact ihf _ (by omega)
                      · exact ihf _ (by omega)
                    · rw [Option.isSome_map']
                      exact ihf (i + 1) (by omega)
    · simp [lexLoop, hi]

/-- Claim C9, part packaging lemma: `lex` never runs out of fuel. -/
theorem lexQ_isSome (bytes : List Nat) : (lexQ bytes).isSome = true :=
  lexLoop_total bytes (bytes.length + 1) 0 (by omega)

/-- A byte outside every lexer rule falls through to the in-band
error-token branch: one `Error` token of length 1 at that position, and
the scan continues at the next byte. -/
theorem lexLoop_unknown_byte (bytes : List Nat) (fuel i b : Nat)
    (hb : bytes.getD i 0 = b) (hi : i < bytes.length) (hu : unknownByte b = true) :
    lexLoop bytes (fuel + 1) i =
      (lexLoop bytes fuel (i + 1)).map
        (mkSpan (.Error (unexpectedCharMsg b)) i (i + 1) :: ·) := by
  simp only [unknownByte, Bool.and_eq_true, Bool.not_eq_true', beq_eq_false_iff_ne,
    Option.isNone_iff_eq_none, ne_eq] at hu
  obtain ⟨⟨⟨⟨⟨hws, hsingle⟩, hquote⟩, hident⟩, hdigit⟩, hamp⟩ := hu
  have hbne : ∀ k : Nat, singleCharTok k ≠ none → b ≠ k := by
    intro k hk he
    subst he
    exact hk hsingle
  have e45 : (b == 45) = false := beq_eq_false_iff_ne.mpr (hbne 45 (by decide))
  have e62 : (b == 62) = false := beq_eq_false_iff_ne.mpr (hbne 62 (by decide))
  have e124 : (b == 124) = false := beq_eq_false_iff_ne.mpr (hbne 124 (by decide))
  have e61 : (b == 61) = false := beq_eq_false_iff_ne.mpr (hbne 61 (by decide))
  have e33 : (b == 33) = false := beq_eq_false_iff_ne.mpr (hbne 33 (by decide))
  have e60 : (b == 60) = false := beq_eq_false_iff_ne.mpr (hbne 60 (by decide))
  have e47 : (b == 47) = false := beq_eq_false_iff_ne.mpr (hbne 47 (by decide))
  have e38 : (b == 38) = false := beq_eq_false_iff_ne.mpr hamp
  have e34 : (b == 34) = false := beq_eq_false_iff_ne.mpr hquote
  have htwo : ∀ c, twoCharOp b c = none := by
    intro c
    simp [twoCharOp, e45, e62, e124, e61, e33, e60, e38]
  have hb2 : bytes[i]?.getD 0 = b := by simpa using hb
  have p47 : ¬ b = 47 := hbne 47 (by decide)
  simp [lexLoop, if_pos hi, hb, hb2, hws, htwo, p47, hquote, hsingle, hident, hdigit]

/-- The string scan on a suffix holding no closing quote runs to the end
of input and reports `closed = false` there. -/
theorem lexStringLoop_unterminated (bytes : List Nat) :
    ∀ fuel i s, bytes.length - i < fuel → i ≤ bytes.length →
      (∀ j, j < bytes.length → i ≤ j → bytes.getD j 0 ≠ 34) →
      ∃ str, lexStringLoop bytes fuel i s = some (false, str, bytes.length) := by
  intro fuel
  induction fuel with
  | zero => intro i s h _ _; omega
  | succ f ihf =>
    intro i s hlt hile hq
    by_cases hi : i < bytes.length
    · have hch : (bytes.getD i 0 == 34) = false :=
        beq_eq_false_iff_ne.mpr (hq i hi (le_refl i))
      simp only [lexStringLoop, if_pos hi, hch, Bool.false_eq_true, if_false]
      split
      · have hesc : (processEscape bytes (i + 1) s).2 = i + 2 := by simp [processEscape]
        rename_i hc
        have hi1 : i + 1 < bytes.length := by
          simp only [Bool.and_eq_true, decide_eq_true_eq] at hc
          exact hc.2
        obtain ⟨str, hstr⟩ := ihf (processEscape bytes (i + 1) s).2
          (processEscape bytes (i + 1) s).1
          (by rw [hesc]; omega) (by rw [hesc]; omega)
          (by rw [hesc]; exact fun j hj hij => hq j hj (by omega))
        exact ⟨str, hstr⟩
      · obtain ⟨str, hstr⟩ := ihf (i + 1) (s.push (Char.ofNat (bytes.getD i 0)))
          (by omega) (by omega) (fun j hj hij => hq j hj (by omega))
        exact ⟨str, hstr⟩
    · have hieq : i = bytes.length := by omega
      subst hieq
      exact ⟨s, by simp [lexStringLoop]⟩

/-- A string literal with no closing quote before end of input lexes to
an `Error` token spanning from the opening quote to the end of input. -/
theorem lexStringLiteral_unterminated (bytes : List Nat) (fuel start : Nat)
    (hs : start < bytes.length)
    (hq : ∀ j, j < bytes.length → start < j → bytes.getD j 0 ≠ 34)
    (hf : bytes.length - (start + 1) < fuel) :
    lexStringLiteral bytes fuel start =
      some (mkSpan (.Error "unterminated string literal") start bytes.length,
        bytes.length) := by
  obtain ⟨str, hstr⟩ := lexStringLoop_unterminated bytes fuel (start + 1) "" hf
    (by omega) (fun j hj hij => hq j hj (by omega))
  rw [lexStringLiteral, hstr]
  rfl

/-- Claim C9: the lexer is total — with its supplied fuel (one unit per
byte plus one) the scan always completes, never raising — and lexical
problems surface as in-band `Error` tokens: an unrecognized byte yields
an `Error` token of length 1 at its own position (the scan resuming at
the next byte), and a string literal with no closing quote before end of
input yields an `Error` token spanning from the opening quote to the end
of input. -/
theorem lexer_total_and_error_tokens :
    (∀ bytes, (lexQ bytes).isSome = true)
    ∧ (∀ bytes fuel i b, bytes.getD i 0 = b → i < bytes.length → unknownByte b = true →
        lexLoop bytes (fuel + 1) i =
          (lexLoop bytes fuel (i + 1)).map
            (mkSpan (.Error (unexpectedCharMsg b)) i (i + 1) :: ·))
    ∧ (∀ bytes fuel start, start < bytes.length →
        (∀ j, j < bytes.length → start < j → bytes.getD j 0 ≠ 34) →
        bytes.length - (start + 1) < fuel →
        lexStringLiteral bytes fuel start =
          some (mkSpan (.Error "unterminated string literal") start bytes.length,
            bytes.length)) :=
  ⟨lexQ_isSome,
   fun bytes fuel i b hb hi hu => lexLoop_unknown_byte bytes fuel i b hb hi hu,
   fun bytes fuel start hs hq hf => lexStringLiteral_unterminated bytes fuel start hs hq hf⟩

/-- Witness for C9: the byte `#` (35) in a one-byte input produces a
length-1 `Error` token, and the unterminated literal `"abc` produces an
`Error` token spanning bytes 0 to 4. -/
theorem lexer_total_and_error_tokens_witness :
    ((lexQ (strBytes "#")).isSome = true)
    ∧ ((strBytes "#").getD 0 0 = 35 ∧ 0 < (strBytes "#").length ∧ unknownByte 35 = true
       ∧ lexLoop (strBytes "#") 10 0 =
           (lexLoop (strBytes "#") 9 1).map (mkSpan (.Error (unexpectedCharMsg 35)) 0 1 :: ·))
    ∧ (0 < (strBytes "\"abc").length
       ∧ (∀ j, j < (strBytes "\"abc").length → 0 < j → (strBytes "\"abc").getD j 0 ≠ 34)
       ∧ (strBytes "\"abc").length - 1 < 10
       ∧ lexStringLiteral (strBytes "\"abc") 10 0 =
           some (mkSpan (.Error "unterminated string literal") 0 4, 4)) :=
  ⟨lexer_total_and_error_tokens.1 (strBytes "#"),
   ⟨rfl, by decide, by decide,
    lexer_total_and_error_tokens.2.1 (strBytes "#") 9 0 35 rfl (by decide) (by decide)⟩,
   ⟨by decide, by decide, by decide, by
    have h := lexer_total_and_error_tokens.2.2 (strBytes "\"abc") 10 0 (by decide)
      (by decide) (by decide)
    exact h⟩⟩
